import Mathlib

/-!
Verification development for the PathFinder_RL core library
(`src/libraries/core/src/core/`): a grid-world environment with pheromone
dynamics (`environment.py`), a quadrant-pooling observation featurizer
(`state.py`, `constants.py`, `utils.py`), and the tabular Q-learning /
greedy-rollout loops (`training.py`).

The shallow embedding below follows the Python source line by line:
Python floats are modelled as exact rationals (`ℚ`), Python lists as Lean
`List`s, the `defaultdict` Q-table as an association list whose read
operation inserts a fresh zero row on a miss, and the process-wide random
number generator as an explicitly threaded stream of draws.  Python list
indexing is modelled with `List.getD`; every index the code actually uses
is in range for well-formed environments, so the defaults are never hit
there (the Python code would raise `IndexError` instead of producing the
default on a malformed environment).
-/

namespace Core

/-! ### constants.py -/

/-- `ACTIONS` from `constants.py`: the 8 compass direction deltas `(dx, dy)`,
in source order UP, DOWN, LEFT, RIGHT, UL, UR, DL, DR. -/
def ACTIONS : List (Int × Int) :=
  [(0, -1), (0, 1), (-1, 0), (1, 0), (-1, -1), (1, -1), (-1, 1), (1, 1)]

/-- `N_ACTIONS = len(ACTIONS)` from `constants.py`. -/
def N_ACTIONS : Nat := ACTIONS.length

/-- The range `range(-radius, radius+1)` with `VISION_RADIUS = 2`,
used by `_quad_offsets` in `constants.py`. -/
def visionRange : List Int := [-2, -1, 0, 1, 2]

/-- `_quad_offsets(dx_sign, dy_sign)` from `constants.py`: offsets in a
directional quadrant out to vision radius 2, skipping the origin and any
offset whose sign contradicts the quadrant's sign in either axis.
The outer loop runs over `dy`, the inner loop over `dx`, as in the source. -/
def quadOffsets (dxSign dySign : Int) : List (Int × Int) :=
  visionRange.flatMap (fun dy => visionRange.filterMap (fun dx =>
    if dx = 0 ∧ dy = 0 then none
    else if dxSign < 0 ∧ 0 < dx then none
    else if 0 < dxSign ∧ dx < 0 then none
    else if dySign < 0 ∧ 0 < dy then none
    else if 0 < dySign ∧ dy < 0 then none
    else some (dx, dy)))

/-- `QUADS` from `constants.py`: the four directional quadrants
UL, UR, DR, DL. -/
def QUADS : List (List (Int × Int)) :=
  [quadOffsets (-1) (-1), quadOffsets 1 (-1), quadOffsets 1 1, quadOffsets (-1) 1]

/-! ### utils.py -/

/-- Python's `max` over a list of floats (`max(values)`, `max(Q[s2])`):
the maximum of a nonempty list, computed as a left fold.  On the empty
list (where Python would raise) it returns 0; no caller reaches that case. -/
def listMax : List ℚ → ℚ
  | [] => 0
  | x :: t => t.foldl max x

/-- `normalize(xs, eps=1e-9)` from `utils.py`: divide every element by
`sum(xs) + eps`. -/
def normalize (xs : List ℚ) (eps : ℚ := 1/1000000000) : List ℚ :=
  let s := xs.sum + eps
  xs.map (fun x => x / s)

/-- `bucketize(x, bins)` from `utils.py`: the index of the first bin
threshold with `x < b`, or `len(bins)` when `x` is at or above all
thresholds. -/
def bucketize (x : ℚ) : List ℚ → Nat
  | [] => 0
  | b :: rest => if x < b then 0 else bucketize x rest + 1

/-! ### environment.py : GridWorld -/

/-- The `info` dict returned by `GridWorld.step`. -/
structure StepInfo where
  hit_wall : Bool
  hit_obstacle : Bool
  reached_goal : Bool
deriving DecidableEq, Repr

/-- The `GridWorld` object state from `environment.py`: the static grid
(rows of characters, `'0'` free and `'1'` obstacle), cached dimensions
`W`/`H`, the `start`/`goal` cells, the mutable agent position `pos`, and
the mutable pheromone field `P` (rows indexed `P[y][x]`). -/
structure GridWorld where
  grid : List (List Char)
  W : Nat
  H : Nat
  start : Int × Int
  goal : Int × Int
  pos : Int × Int
  P : List (List ℚ)
deriving DecidableEq, Repr

/-- `self.grid[y][x]` (total model of Python list indexing; in range for
every access the code performs on a well-formed environment). -/
def tileAt (grid : List (List Char)) (y x : Nat) : Char :=
  (grid.getD y []).getD x '1'

/-- `self.P[y][x]` read access. -/
def pherAt (P : List (List ℚ)) (y x : Nat) : ℚ :=
  (P.getD y []).getD x 0

/-- `GridWorld.reset` from `environment.py`: agent back to `start`, the
pheromone map zeroed to an `H × W` field. -/
def GridWorld.reset (env : GridWorld) : GridWorld :=
  { env with pos := env.start,
             P := List.replicate env.H (List.replicate env.W (0 : ℚ)) }

/-- `GridWorld.__init__` from `environment.py`: stores the grid, caches
`H = len(grid)` and `W = len(grid[0])`, stores `start`/`goal`, and calls
`reset`.  The only failing input is the empty grid, where `grid[0]`
raises `IndexError` (modelled as `none`).  No other validation is
performed: start/goal bounds and row rectangularity are never checked. -/
def GridWorld.init (grid : List (List Char)) (start goal : Int × Int) :
    Option GridWorld :=
  match grid with
  | [] => none
  | g0 :: rest =>
    some (GridWorld.reset
      { grid := g0 :: rest, H := (g0 :: rest).length, W := g0.length,
        start := start, goal := goal, pos := start, P := [] })

/-- `0 <= tx < self.W`, the x-axis in-bounds test of `step`. -/
def inBoundsX (env : GridWorld) (t : Int) : Prop :=
  0 ≤ t ∧ t < (env.W : Int)

/-- `0 <= ty < self.H`, the y-axis in-bounds test of `step`. -/
def inBoundsY (env : GridWorld) (t : Int) : Prop :=
  0 ≤ t ∧ t < (env.H : Int)

instance (env : GridWorld) (t : Int) : Decidable (inBoundsX env t) := by
  unfold inBoundsX; infer_instance

instance (env : GridWorld) (t : Int) : Decidable (inBoundsY env t) := by
  unfold inBoundsY; infer_instance

/-- The pheromone decay sweep of `step`: every cell of the field is
multiplied by the decay constant. -/
def decayField (P : List (List ℚ)) (d : ℚ) : List (List ℚ) :=
  P.map (fun row => row.map (fun v => v * d))

/-- `self.P[y][x] += deposit_rate * (1.0 - self.P[y][x])` of `step`. -/
def depositAt (P : List (List ℚ)) (y x : Nat) (rate : ℚ) : List (List ℚ) :=
  let row := P.getD y []
  let v := row.getD x 0
  P.set y (row.set x (v + rate * (1 - v)))

/-- `GridWorld.step(action_idx)` from `environment.py`, returning
`(new env state, reward, done, info)`.  Mirrors the source exactly:
the target cell is clamped per axis; `hit_wall` records an out-of-bounds
target; the base reward is 0 on a free tile and -1 otherwise; the
wall-hit penalty line of the source is commented out and therefore
absent here; the whole field decays by 0.97 before a 0.6-rate deposit
on the occupied cell; `pher_penalty` is 0; the goal bonus line adds 0. -/
def GridWorld.step (env : GridWorld) (action_idx : Nat) :
    GridWorld × ℚ × Bool × StepInfo :=
  let d := ACTIONS.getD action_idx (0, 0)
  let tx := env.pos.1 + d.1
  let ty := env.pos.2 + d.2
  let hit_wall : Bool := !(decide (inBoundsX env tx ∧ inBoundsY env ty))
  let nx : Int := max 0 (min ((env.W : Int) - 1) tx)
  let ny : Int := max 0 (min ((env.H : Int) - 1) ty)
  let tile := tileAt env.grid ny.toNat nx.toNat
  let hit_obstacle : Bool := tile = '1'
  let tile_reward : ℚ := if tile = '0' then 0 else -1
  let r0 : ℚ := tile_reward
  -- `if hit_wall: r -= 1.0` is commented out in the source
  let decay : ℚ := 97/100
  let P1 := decayField env.P decay
  let deposit_rate : ℚ := 3/5
  let P2 := depositAt P1 ny.toNat nx.toNat deposit_rate
  let pher_penalty : ℚ := 0
  let r1 := r0 - pher_penalty * pherAt P2 ny.toNat nx.toNat
  let reached_goal : Bool := (nx, ny) = env.goal
  let done := reached_goal || hit_wall || hit_obstacle
  let r2 := if reached_goal then r1 + 0 else r1
  ({ env with pos := (nx, ny), P := P2 }, r2, done,
   { hit_wall := hit_wall, hit_obstacle := hit_obstacle,
     reached_goal := reached_goal })

/-! ### state.py : featurizer -/

/-- The Python state tuple `tile_b + pher_b`: four un-bucketized tile
strengths (raw rationals — the bucketize call on the tile half is
commented out in the source) followed by four pheromone bucket indices. -/
abbrev StateKey := List ℚ × List Nat

/-- The dict returned by `get_state_debug` in `state.py`. -/
structure StateDebug where
  state : StateKey
  tile_avgs : List ℚ
  pher_avgs : List ℚ
  tile_strength : List ℚ
  pher_strength : List ℚ
  tile_buckets : List ℚ
  pher_buckets : List Nat
deriving DecidableEq, Repr

/-- The per-quadrant accumulation loop of `get_state_debug`: sum the tile
favorability values (0 free, -1 obstacle, -2 out of bounds) and the
pheromone values (field value in bounds, 1.0 out of bounds) over the
quadrant's offsets. -/
def poolQuad (env : GridWorld) (quad : List (Int × Int)) : ℚ × ℚ :=
  quad.foldl (fun acc dd =>
    let x := env.pos.1 + dd.1
    let y := env.pos.2 + dd.2
    if inBoundsX env x ∧ inBoundsY env y then
      (acc.1 + (if tileAt env.grid y.toNat x.toNat = '0' then 0 else -1),
       acc.2 + pherAt env.P y.toNat x.toNat)
    else
      (acc.1 + -2, acc.2 + 1)) (0, 0)

/-- `get_state_debug(env)` from `state.py`.  Note two deviations of the
source from its own docstring, both carried over faithfully here:
`tile_strength` is the raw quadrant averages (the `softmax` call is
commented out), and the tile half of the state is not bucketized (that
call is commented out too). -/
def get_state_debug (env : GridWorld) : StateDebug :=
  let tile_avgs := QUADS.map (fun quad => (poolQuad env quad).1 / (quad.length : ℚ))
  let pher_avgs := QUADS.map (fun quad => (poolQuad env quad).2 / (quad.length : ℚ))
  let tile_strength := tile_avgs
  let pher_goodness := pher_avgs.map (fun p => 1 / (1 + p))
  let pher_strength := normalize pher_goodness
  let bins : List ℚ := [2/10, 4/10, 6/10, 8/10]
  let tile_b := tile_strength
  let pher_b := pher_strength.map (fun v => bucketize v bins)
  { state := (tile_b, pher_b),
    tile_avgs := tile_avgs, pher_avgs := pher_avgs,
    tile_strength := tile_strength, pher_strength := pher_strength,
    tile_buckets := tile_b, pher_buckets := pher_b }

/-- `get_state(env)` from `state.py`: the `state` entry of
`get_state_debug`. -/
def get_state (env : GridWorld) : StateKey :=
  (get_state_debug env).state

/-! ### training.py : Q-table (`defaultdict(lambda: [0.0] * N_ACTIONS)`) -/

/-- The lazily created all-zeros action-value row. -/
def zeroRow : List ℚ := List.replicate N_ACTIONS 0

/-- The Q-table: insertion-ordered association list from state keys to
action-value rows, modelling the Python `defaultdict`. -/
abbrev QTable := List (StateKey × List ℚ)

/-- Plain dictionary lookup (no default insertion). -/
def qlookup : QTable → StateKey → Option (List ℚ)
  | [], _ => none
  | (k, v) :: rest, s => if k = s then some v else qlookup rest s

/-- Dictionary write `Q[s] = v`: replaces the first binding of `s`, or
appends a new binding when `s` is absent. -/
def qset : QTable → StateKey → List ℚ → QTable
  | [], s, v => [(s, v)]
  | (k, w) :: rest, s, v =>
    if k = s then (k, v) :: rest else (k, w) :: qset rest s v

/-- `defaultdict` read `Q[s]`: returns the stored row, or inserts and
returns a fresh all-zeros row when `s` is absent (the second component is
the possibly grown table). -/
def dget (Q : QTable) (s : StateKey) : List ℚ × QTable :=
  match qlookup Q s with
  | some v => (v, Q)
  | none => (zeroRow, Q ++ [(s, zeroRow)])

/-- The row the table associates to `s` (the all-zeros default when `s`
is absent) — the value a `defaultdict` read observes. -/
def qrowAt (Q : QTable) (s : StateKey) : List ℚ :=
  (qlookup Q s).getD zeroRow

/-! ### randomness: explicitly threaded stream of draws

The Python code draws from the process-wide generator
(`random.random`, `random.randrange`, `random.choice`); the model
threads an explicit stream, one position per draw. -/

/-- A random source: `u k` is the `k`-th `random.random()` draw, `n k`
the `k`-th integer draw (taken modulo the requested bound), `k` the
number of draws consumed so far. -/
structure Rand where
  u : Nat → ℚ
  n : Nat → Nat
  k : Nat

/-- One `random.random()` draw. -/
def Rand.unif (rnd : Rand) : ℚ × Rand :=
  (rnd.u rnd.k, { rnd with k := rnd.k + 1 })

/-- One `random.randrange(bound)` draw (also used for the index pick of
`random.choice`). -/
def Rand.randNat (rnd : Rand) (bound : Nat) : Nat × Rand :=
  (rnd.n rnd.k % bound, { rnd with k := rnd.k + 1 })

/-- `argmax_index(values)` from `utils.py`: the indices attaining
`max(values)`, with `random.choice` picking uniformly among them. -/
def argmax_index (values : List ℚ) (rnd : Rand) : Nat × Rand :=
  let m := listMax values
  let idxs := (List.range values.length).filter (fun i => decide (values.getD i 0 = m))
  let c := rnd.randNat idxs.length
  (idxs.getD c.1 0, c.2)

/-! ### training.py : q_learning -/

/-- `best_next = 0.0 if done else max(Q[s2])` (training.py line 81).
When `done` is true the table is not read at all (so no default row is
inserted for `s2`); otherwise the `defaultdict` read of `Q[s2]` happens
and `max` is taken over the row. -/
def bellmanLookup (Q : QTable) (s2 : StateKey) (done : Bool) : ℚ × QTable :=
  if done then (0, Q)
  else
    let v2 := dget Q s2
    (listMax v2.1, v2.2)

/-- `Q[s][a] += alpha * (r + gamma * best_next - Q[s][a])`
(training.py line 82), together with the `best_next` computation of
line 81 that precedes it. -/
def bellmanUpdate (Q : QTable) (s : StateKey) (a : Nat) (r : ℚ)
    (s2 : StateKey) (done : Bool) (alpha gamma : ℚ) : QTable :=
  let bn := bellmanLookup Q s2 done
  let qs := dget bn.2 s
  let old := qs.1.getD a 0
  qset qs.2 s (qs.1.set a (old + alpha * (r + gamma * bn.1 - old)))

/-- The state threaded through the inner loop of `q_learning`
(training.py lines 68–113), for the `visualize=False` path where the
renderer is absent.  `dones` is instrumentation only: the `done` flag of
each environment step executed so far, in order. -/
structure InnerState where
  env : GridWorld
  Q : QTable
  s : StateKey
  total_r : ℚ
  rnd : Rand
  dones : List Bool

/-- One iteration of the inner loop of `q_learning`: read `q_s = Q[s]`,
draw the epsilon-greedy action, step the environment, featurize the new
state, apply the Bellman update, and advance `s ← s2`.  The source ends
the iteration with `if not done: pass` — there is no `break`, so the
loop body is the same whether or not the step reported `done`. -/
def qlInnerStep (eps alpha gamma : ℚ) (st : InnerState) : InnerState :=
  let qs := dget st.Q st.s
  let u := st.rnd.unif
  let exploring := decide (u.1 < eps)
  let ar : Nat × Rand :=
    if exploring then u.2.randNat N_ACTIONS else argmax_index qs.1 u.2
  let stepRes := st.env.step ar.1
  let r := stepRes.2.1
  let done := stepRes.2.2.1
  let s2 := (get_state_debug stepRes.1).state
  let Q2 := bellmanUpdate qs.2 st.s ar.1 r s2 done alpha gamma
  { env := stepRes.1, Q := Q2, s := s2, total_r := st.total_r + r,
    rnd := ar.2, dones := st.dones ++ [done] }

/-- The inner loop `for t in range(1, max_steps + 1)` of `q_learning`:
exactly `max_steps` iterations of `qlInnerStep`, never fewer — the
source contains no `break` on `done`. -/
def qlInnerLoop (eps alpha gamma : ℚ) : Nat → InnerState → InnerState
  | 0, st => st
  | t + 1, st => qlInnerLoop eps alpha gamma t (qlInnerStep eps alpha gamma st)

/-- One full episode of `q_learning`: `env.reset()`, `s = get_state(env)`,
then the inner loop. -/
def qlEpisode (max_steps : Nat) (eps alpha gamma : ℚ) (env : GridWorld)
    (Q : QTable) (rnd : Rand) : InnerState :=
  qlInnerLoop eps alpha gamma max_steps
    { env := env.reset, Q := Q, s := get_state env.reset, total_r := 0,
      rnd := rnd, dones := [] }

/-- The outer episode loop of `q_learning`, with the end-of-episode
epsilon decay `eps = max(0.01, eps * 0.995)`.  Returns the final
environment, Q-table and random source. -/
def qlOuter (max_steps : Nat) (alpha gamma : ℚ) :
    Nat → ℚ → GridWorld → QTable → Rand → GridWorld × QTable × Rand
  | 0, _, env, Q, rnd => (env, Q, rnd)
  | ep + 1, eps, env, Q, rnd =>
    let st := qlEpisode max_steps eps alpha gamma env Q rnd
    qlOuter max_steps alpha gamma ep (max (1/100) (eps * (995/1000)))
      st.env st.Q st.rnd

/-- `q_learning(env, episodes, max_steps, alpha, gamma, eps)` from
`training.py` with `visualize=False`: starts from the empty
`defaultdict` and runs the episode loop. -/
def q_learning (env : GridWorld) (episodes max_steps : Nat)
    (alpha gamma eps : ℚ) (rnd : Rand) : QTable :=
  (qlOuter max_steps alpha gamma episodes eps env [] rnd).2.1

/-! ### training.py : greedy_run -/

/-- The state threaded through the rollout loop of `greedy_run`. -/
structure GreedyState where
  env : GridWorld
  Q : QTable
  rnd : Rand
  total_r : ℚ

/-- The loop `for t in range(max_steps)` of `greedy_run` (training.py
lines 129–158), for the `visualize=False` path: featurize, read
`Q[s]` (a `defaultdict` read, which may insert a zero row), take the
argmax action, step, and return `(total_r, info.get("reached_goal"))`
on `done`; after the step budget return `(total_r, False)`.  The final
Q-table is returned as the third component to expose the side effect on
the table. -/
def greedyLoop : Nat → GreedyState → ℚ × Bool × QTable
  | 0, st => (st.total_r, false, st.Q)
  | t + 1, st =>
    let s := get_state st.env
    let qs := dget st.Q s
    let ar := argmax_index qs.1 st.rnd
    let stepRes := st.env.step ar.1
    let r := stepRes.2.1
    let done := stepRes.2.2.1
    let total := st.total_r + r
    if done then (total, stepRes.2.2.2.reached_goal, qs.2)
    else greedyLoop t { env := stepRes.1, Q := qs.2, rnd := ar.2, total_r := total }

/-- `greedy_run(env, Q, max_steps)` from `training.py` with
`visualize=False`: resets the environment and runs the rollout loop. -/
def greedy_run (env : GridWorld) (Q : QTable) (max_steps : Nat)
    (rnd : Rand) : ℚ × Bool × QTable :=
  greedyLoop max_steps { env := env.reset, Q := Q, rnd := rnd, total_r := 0 }

/-! ### derived notions used in the specification statements -/

/-- "Q1 extends Q0 with at most fresh all-zero rows": every binding of
`Q0` is still present unchanged, and any key absent from `Q0` is either
still absent or bound to the all-zeros default row. -/
def ExtendsZ (Q0 Q1 : QTable) : Prop :=
  (∀ s v, qlookup Q0 s = some v → qlookup Q1 s = some v) ∧
  (∀ s, qlookup Q0 s = none →
      qlookup Q1 s = none ∨ qlookup Q1 s = some zeroRow)

/-- A call against the environment's public interface: `reset()` or
`step(a)`. -/
inductive EnvOp where
  | reset : EnvOp
  | act : Nat → EnvOp

/-- Apply one interface call, keeping the resulting environment state. -/
def applyOp (env : GridWorld) : EnvOp → GridWorld
  | EnvOp.reset => env.reset
  | EnvOp.act a => (env.step a).1

/-- Run a sequence of `reset()`/`step()` calls. -/
def runOps (env : GridWorld) (ops : List EnvOp) : GridWorld :=
  ops.foldl applyOp env

/-- Every pheromone cell value lies in [0,1]. -/
def PherInRange (env : GridWorld) : Prop :=
  ∀ row ∈ env.P, ∀ p ∈ row, 0 ≤ p ∧ p ≤ 1

/-! ### concrete inputs used by witnesses and counterexamples -/

/-- A deterministic random source: every `random.random()` draw is 1
(so epsilon-greedy always exploits for any `eps ≤ 1`), every integer
draw is 0 (so ties break to the first index). -/
def rndOne : Rand := { u := fun _ => 1, n := fun _ => 0, k := 0 }

/-- A deterministic random source whose `random.random()` draws are all
0 (so epsilon-greedy always explores for any `eps > 0`) and whose
integer draws are all 0 (so the explored action is always action 0). -/
def rndZero : Rand := { u := fun _ => 0, n := fun _ => 0, k := 0 }

/-- A 2×2 all-free grid world, agent at the start cell `(0,0)`,
pheromone field zeroed — the state right after `reset()`. -/
def envFree2 : GridWorld :=
  { grid := [['0', '0'], ['0', '0']], W := 2, H := 2,
    start := (0, 0), goal := (1, 1), pos := (0, 0),
    P := [[0, 0], [0, 0]] }

/-- A 1×2 all-free grid world with the goal one step to the right of the
start, as after `reset()`. -/
def envRow2 : GridWorld :=
  { grid := [['0', '0']], W := 2, H := 1,
    start := (0, 0), goal := (1, 0), pos := (0, 0),
    P := [[0, 0]] }

/-- A 2×2 all-obstacle grid world, as after `reset()`: every step lands
on a `'1'` tile, so every step reports `done=true`. -/
def envObst2 : GridWorld :=
  { grid := [['1', '1'], ['1', '1']], W := 2, H := 2,
    start := (0, 0), goal := (1, 1), pos := (0, 0),
    P := [[0, 0], [0, 0]] }

/-- A 5×5 all-free grid world with the agent at the center `(2,2)`, as
after `reset()`: the whole 5×5 vision neighborhood is in bounds and
free. -/
def envFree5 : GridWorld :=
  { grid := [['0','0','0','0','0'], ['0','0','0','0','0'], ['0','0','0','0','0'],
             ['0','0','0','0','0'], ['0','0','0','0','0']], W := 5, H := 5,
    start := (2, 2), goal := (4, 4), pos := (2, 2),
    P := [[0,0,0,0,0], [0,0,0,0,0], [0,0,0,0,0], [0,0,0,0,0], [0,0,0,0,0]] }

/-- A 3×3 all-free grid world with the agent on the top edge at `(1,0)`:
a diagonal step up leaves the grid in the y axis only. -/
def envEdge3 : GridWorld :=
  { grid := [['0','0','0'], ['0','0','0'], ['0','0','0']], W := 3, H := 3,
    start := (1, 0), goal := (2, 2), pos := (1, 0),
    P := [[0,0,0], [0,0,0], [0,0,0]] }

/-- A 2×2 grid world with a nonuniform pheromone field, used to observe
the decay-then-deposit arithmetic of one `step()`. -/
def envPher2 : GridWorld :=
  { grid := [['0', '0'], ['0', '0']], W := 2, H := 2,
    start := (0, 0), goal := (1, 1), pos := (0, 0),
    P := [[1/2, 1], [0, 1/4]] }

/-- A sample state key. -/
def keyA : StateKey := ([1, 2, 3, 4], [0, 1, 2, 3])

/-- A sample Q-table with one binding. -/
def qtabA : QTable := [(keyA, [1, 2, 3, 4, 5, 6, 7, 8])]

/-! ### Q-table lemmas -/

theorem qlookup_qset_self (Q : QTable) (s : StateKey) (v : List ℚ) :
    qlookup (qset Q s v) s = some v := by
  induction Q with
  | nil => simp [qset, qlookup]
  | cons p rest ih =>
    obtain ⟨k, w⟩ := p
    by_cases h : k = s
    · simp [qset, qlookup, h]
    · simp [qset, qlookup, h, ih]

theorem qlookup_append_zero (Q : QTable) (t s : StateKey) :
    qlookup (Q ++ [(t, zeroRow)]) s =
      ((qlookup Q s).orElse (fun _ => if t = s then some zeroRow else none)) := by
  induction Q with
  | nil => simp [qlookup]
  | cons p rest ih =>
    obtain ⟨k, w⟩ := p
    by_cases h : k = s
    · simp [qlookup, h]
    · simpa [qlookup, h] using ih

theorem qrowAt_dget_snd (Q : QTable) (t s : StateKey) :
    qrowAt (dget Q t).2 s = qrowAt Q s := by
  unfold dget
  cases ht : qlookup Q t with
  | some v => simp
  | none =>
    simp only [qrowAt, qlookup_append_zero]
    cases hs : qlookup Q s with
    | some v => simp
    | none =>
      by_cases h : t = s
      · simp [h]
      · simp [h]

theorem dget_fst (Q : QTable) (s : StateKey) :
    (dget Q s).1 = qrowAt Q s := by
  unfold dget qrowAt
  cases h : qlookup Q s <;> simp

/-! ### maximum-of-a-row lemmas -/

theorem le_foldl_max (t : List ℚ) (a : ℚ) : a ≤ t.foldl max a := by
  induction t generalizing a with
  | nil => simp
  | cons x xs ih => exact le_trans (le_max_left a x) (ih (max a x))

theorem mem_le_foldl_max (t : List ℚ) (a x : ℚ) (h : x ∈ t) :
    x ≤ t.foldl max a := by
  induction t generalizing a with
  | nil => simp at h
  | cons y ys ih =>
    rcases List.mem_cons.mp h with rfl | h
    · exact le_trans (le_max_right a x) (le_foldl_max ys (max a x))
    · exact ih (max a y) h

theorem foldl_max_choice (t : List ℚ) (a : ℚ) :
    t.foldl max a = a ∨ t.foldl max a ∈ t := by
  induction t generalizing a with
  | nil => simp
  | cons y ys ih =>
    rw [List.foldl_cons]
    rcases le_total y a with hy | hy
    · rw [max_eq_left hy]
      rcases ih a with h | h
      · exact Or.inl h
      · exact Or.inr (List.mem_cons_of_mem y h)
    · rw [max_eq_right hy]
      rcases ih y with h | h
      · exact Or.inr (by rw [h]; exact List.mem_cons_self y ys)
      · exact Or.inr (List.mem_cons_of_mem y h)

theorem listMax_ge (l : List ℚ) (x : ℚ) (h : x ∈ l) : x ≤ listMax l := by
  cases l with
  | nil => simp at h
  | cons y ys =>
    rcases List.mem_cons.mp h with rfl | h
    · exact le_foldl_max ys x
    · exact mem_le_foldl_max ys y x h

theorem listMax_mem (l : List ℚ) (h : l ≠ []) : listMax l ∈ l := by
  cases l with
  | nil => exact absurd rfl h
  | cons y ys =>
    rcases foldl_max_choice ys y with he | he
    · simp [listMax, he]
    · exact List.mem_cons_of_mem y (by simpa [listMax] using he)

theorem getD_mem_of_lt (l : List ℚ) (i : Nat) (h : i < l.length) :
    l.getD i 0 ∈ l := by
  rw [List.getD_eq_getElem l 0 h]
  exact List.getElem_mem h

theorem qrowAt_qset_self (Q : QTable) (s : StateKey) (v : List ℚ) :
    qrowAt (qset Q s v) s = v := by
  simp [qrowAt, qlookup_qset_self]

theorem qrowAt_bellmanLookup_snd (Q : QTable) (s2 s : StateKey) (d : Bool) :
    qrowAt (bellmanLookup Q s2 d).2 s = qrowAt Q s := by
  cases d with
  | true => simp [bellmanLookup]
  | false => simpa [bellmanLookup] using qrowAt_dget_snd Q s2 s

theorem extendsZ_refl (Q : QTable) : ExtendsZ Q Q :=
  ⟨fun _ _ h => h, fun _ h => Or.inl h⟩

theorem extendsZ_trans {A B C : QTable} (h1 : ExtendsZ A B)
    (h2 : ExtendsZ B C) : ExtendsZ A C := by
  refine ⟨fun s v hs => h2.1 s v (h1.1 s v hs), fun s hs => ?_⟩
  rcases h1.2 s hs with h | h
  · exact h2.2 s h
  · exact Or.inr (h2.1 s zeroRow h)

theorem extendsZ_dget (Q : QTable) (t : StateKey) :
    ExtendsZ Q (dget Q t).2 := by
  unfold dget
  cases ht : qlookup Q t with
  | some v => exact extendsZ_refl Q
  | none =>
    constructor
    · intro s v hs
      rw [qlookup_append_zero, hs]
      rfl
    · intro s hs
      rw [qlookup_append_zero, hs]
      by_cases h : t = s
      · right; simp [Option.orElse, h]
      · left; simp [Option.orElse, h]

theorem greedyLoop_extendsZ (fuel : Nat) :
    ∀ st : GreedyState, ExtendsZ st.Q (greedyLoop fuel st).2.2 := by
  induction fuel with
  | zero => intro st; exact extendsZ_refl _
  | succ t ih =>
    intro st
    simp only [greedyLoop]
    split
    · exact extendsZ_dget st.Q (get_state st.env)
    · exact extendsZ_trans (extendsZ_dget st.Q (get_state st.env))
        (ih { env := (st.env.step (argmax_index (dget st.Q (get_state st.env)).1 st.rnd).1).1,
              Q := (dget st.Q (get_state st.env)).2,
              rnd := (argmax_index (dget st.Q (get_state st.env)).1 st.rnd).2,
              total_r := st.total_r
                + (st.env.step (argmax_index (dget st.Q (get_state st.env)).1 st.rnd).1).2.1 })

/-! ### pheromone range lemmas -/

theorem getD_row_range (P : List (List ℚ)) (y : Nat)
    (h : ∀ row ∈ P, ∀ p ∈ row, 0 ≤ p ∧ p ≤ 1) :
    ∀ q ∈ P.getD y [], 0 ≤ q ∧ q ≤ 1 := by
  by_cases hy : y < P.length
  · rw [List.getD_eq_getElem P [] hy]
    exact h _ (List.getElem_mem hy)
  · rw [List.getD_eq_default P [] (le_of_not_lt hy)]
    intro q hq
    simp at hq

theorem decayField_range (P : List (List ℚ))
    (h : ∀ row ∈ P, ∀ p ∈ row, 0 ≤ p ∧ p ≤ 1) :
    ∀ row ∈ decayField P (97/100), ∀ p ∈ row, 0 ≤ p ∧ p ≤ 1 := by
  intro row hrow p hp
  simp only [decayField, List.mem_map] at hrow
  obtain ⟨row0, hrow0, rfl⟩ := hrow
  simp only [List.mem_map] at hp
  obtain ⟨p0, hp0, rfl⟩ := hp
  obtain ⟨h0, h1⟩ := h row0 hrow0 p0 hp0
  constructor <;> nlinarith

theorem depositAt_range (P : List (List ℚ)) (y x : Nat)
    (h : ∀ row ∈ P, ∀ p ∈ row, 0 ≤ p ∧ p ≤ 1) :
    ∀ row ∈ depositAt P y x (3/5), ∀ p ∈ row, 0 ≤ p ∧ p ≤ 1 := by
  intro row hrow p hp
  unfold depositAt at hrow
  have hrowy := getD_row_range P y h
  rcases List.mem_or_eq_of_mem_set hrow with hrow' | rfl
  · exact h row hrow' p hp
  · rcases List.mem_or_eq_of_mem_set hp with hp' | rfl
    · exact hrowy p hp'
    · have hv : 0 ≤ (P.getD y []).getD x 0 ∧ (P.getD y []).getD x 0 ≤ 1 := by
        by_cases hx : x < (P.getD y []).length
        · exact hrowy _ (getD_mem_of_lt _ x hx)
        · rw [List.getD_eq_default _ 0 (le_of_not_lt hx)]
          norm_num
      constructor <;> nlinarith [hv.1, hv.2]

theorem pherInRange_reset (env : GridWorld) : PherInRange env.reset := by
  intro row hrow p hp
  simp only [GridWorld.reset] at hrow
  obtain rfl := List.eq_of_mem_replicate hrow
  obtain rfl := List.eq_of_mem_replicate hp
  norm_num

theorem pherInRange_step (env : GridWorld) (a : Nat) (h : PherInRange env) :
    PherInRange (env.step a).1 := by
  have hstep : (env.step a).1.P
      = depositAt (decayField env.P (97/100))
          (max 0 (min ((env.H : Int) - 1)
            (env.pos.2 + (ACTIONS.getD a (0, 0)).2))).toNat
          (max 0 (min ((env.W : Int) - 1)
            (env.pos.1 + (ACTIONS.getD a (0, 0)).1))).toNat
          (3/5) := by
    simp [GridWorld.step]
  unfold PherInRange
  rw [hstep]
  exact depositAt_range _ _ _ (decayField_range _ h)

theorem runOps_range (ops : List EnvOp) :
    ∀ env : GridWorld, PherInRange env → PherInRange (runOps env ops) := by
  induction ops with
  | nil => intro env h; simpa [runOps] using h
  | cons op rest ih =>
    intro env h
    rw [runOps, List.foldl_cons]
    apply ih
    cases op with
    | reset => exact pherInRange_reset env
    | act a => exact pherInRange_step env a h

/-! ### field indexing lemmas -/

theorem getD_set_self_of_lt {α : Type} (l : List α) (n : Nat) (a d : α)
    (h : n < l.length) : (l.set n a).getD n d = a := by
  rw [List.getD_eq_getElem?_getD, List.getElem?_set_self h, Option.getD_some]

theorem getD_set_ne {α : Type} (l : List α) (m n : Nat) (a d : α)
    (h : m ≠ n) : (l.set m a).getD n d = l.getD n d := by
  rw [List.getD_eq_getElem?_getD, List.getElem?_set_ne h,
    ← List.getD_eq_getElem?_getD]

theorem pherAt_decayField (P : List (List ℚ)) (c : ℚ) (j i : Nat) :
    pherAt (decayField P c) j i = pherAt P j i * c := by
  simp only [pherAt, decayField, List.getD_eq_getElem?_getD, List.getElem?_map]
  cases h : P[j]? with
  | none => simp
  | some row =>
    simp only [Option.map_some', Option.getD_some, List.getElem?_map]
    cases h2 : row[i]? with
    | none => simp
    | some v => simp

theorem pherAt_depositAt (P : List (List ℚ)) (y x j i : Nat) (rate : ℚ)
    (hy : y < P.length) (hx : x < (P.getD y []).length) :
    pherAt (depositAt P y x rate) j i
      = if j = y ∧ i = x
        then pherAt P y x + rate * (1 - pherAt P y x)
        else pherAt P j i := by
  unfold depositAt pherAt
  by_cases hj : j = y
  · subst hj
    rw [getD_set_self_of_lt _ _ _ _ hy]
    by_cases hi : i = x
    · subst hi
      rw [getD_set_self_of_lt _ _ _ _ hx]
      simp
    · rw [getD_set_ne _ _ _ _ _ (fun h => hi h.symm)]
      simp [hi]
  · rw [getD_set_ne _ _ _ _ _ (fun h => hj h.symm)]
    simp [hj]

/-- The new position and pheromone field of one `step` call, read off
the source: the per-axis clamped target, and the decayed field with the
deposit applied at the clamped cell. -/
theorem step_pos_P (env : GridWorld) (a : Nat) :
    (env.step a).1.pos
      = (max 0 (min ((env.W : Int) - 1) (env.pos.1 + (ACTIONS.getD a (0,0)).1)),
         max 0 (min ((env.H : Int) - 1) (env.pos.2 + (ACTIONS.getD a (0,0)).2)))
  ∧ (env.step a).1.P
      = depositAt (decayField env.P (97/100))
          (max 0 (min ((env.H : Int) - 1) (env.pos.2 + (ACTIONS.getD a (0,0)).2))).toNat
          (max 0 (min ((env.W : Int) - 1) (env.pos.1 + (ACTIONS.getD a (0,0)).1))).toNat
          (3/5) := by
  constructor <;> simp [GridWorld.step]

/-! ### step observation lemmas -/

theorem step_reward_eq (env : GridWorld) (a : Nat) :
    (env.step a).2.1
      = (if tileAt env.grid (env.step a).1.pos.2.toNat (env.step a).1.pos.1.toNat = '0'
         then 0 else -1) := by
  simp [GridWorld.step]

theorem step_hit_wall_iff (env : GridWorld) (a : Nat) :
    (env.step a).2.2.2.hit_wall = true
      ↔ ¬ (inBoundsX env (env.pos.1 + (ACTIONS.getD a (0,0)).1)
           ∧ inBoundsY env (env.pos.2 + (ACTIONS.getD a (0,0)).2)) := by
  simp [GridWorld.step]
  tauto

theorem step_done_eq (env : GridWorld) (a : Nat) :
    (env.step a).2.2.1
      = ((env.step a).2.2.2.reached_goal || (env.step a).2.2.2.hit_wall
          || (env.step a).2.2.2.hit_obstacle) := by
  simp [GridWorld.step]

/-- Trichotomy of the per-axis clamp `max(0, min(w-1, t))` of `step`:
in-bounds targets are kept, targets below 0 clamp to 0, targets at or
past `w` clamp to `w-1`. -/
theorem clamp_cases (w t : Int) (hw : 1 ≤ w) :
    (0 ≤ t ∧ t < w ∧ max 0 (min (w-1) t) = t)
  ∨ (t < 0 ∧ max 0 (min (w-1) t) = 0)
  ∨ (w ≤ t ∧ max 0 (min (w-1) t) = w - 1) := by
  by_cases ht0 : t < 0
  · refine Or.inr (Or.inl ⟨ht0, ?_⟩)
    rw [min_eq_right (by omega), max_eq_left (by omega)]
  · by_cases htw : w ≤ t
    · refine Or.inr (Or.inr ⟨htw, ?_⟩)
      rw [min_eq_left (by omega), max_eq_right (by omega)]
    · refine Or.inl ⟨by omega, by omega, ?_⟩
      rw [min_eq_right (by omega), max_eq_right (by omega)]

/-! ### training loop and featurizer lemmas -/

/-- The inner loop of `q_learning` always executes exactly its full step
budget: one `done` flag is recorded per iteration and no iteration is
skipped, because the loop body contains no `break`. -/
theorem qlInnerLoop_dones_length (eps alpha gamma : ℚ) (n : Nat) :
    ∀ st : InnerState,
      ((qlInnerLoop eps alpha gamma n st).dones).length = st.dones.length + n := by
  induction n with
  | zero => intro st; simp [qlInnerLoop]
  | succ t ih =>
    intro st
    rw [qlInnerLoop, ih]
    simp only [qlInnerStep, List.length_append, List.length_singleton]
    omega

theorem poolQuad_fst_le (env : GridWorld) :
    ∀ (quad : List (Int × Int)) (acc : ℚ × ℚ),
      (quad.foldl (fun acc dd =>
        let x := env.pos.1 + dd.1
        let y := env.pos.2 + dd.2
        if inBoundsX env x ∧ inBoundsY env y then
          (acc.1 + (if tileAt env.grid y.toNat x.toNat = '0' then 0 else -1),
           acc.2 + pherAt env.P y.toNat x.toNat)
        else
          (acc.1 + -2, acc.2 + 1)) acc).1 ≤ acc.1 := by
  intro quad
  induction quad with
  | nil => intro acc; simp
  | cons dd rest ih =>
    intro acc
    rw [List.foldl_cons]
    refine le_trans (ih _) ?_
    by_cases h : inBoundsX env (env.pos.1 + dd.1) ∧ inBoundsY env (env.pos.2 + dd.2)
    · simp only [if_pos h]
      by_cases h2 : tileAt env.grid (env.pos.2 + dd.2).toNat (env.pos.1 + dd.1).toNat = '0'
      · simp [h2]
      · simp [h2]
    · simp only [if_neg h]
      simp

/-- Every per-quadrant pooled tile sum is nonpositive: each cell
contributes 0 (free), -1 (obstacle), or -2 (out of bounds). -/
theorem poolQuad_fst_nonpos (env : GridWorld) (quad : List (Int × Int)) :
    (poolQuad env quad).1 ≤ 0 := by
  have h := poolQuad_fst_le env quad (0, 0)
  simpa [poolQuad] using h

/-- The tile "relative-strength" 4-vector the featurizer returns is the
raw quadrant averages (the softmax is commented out in the source), so
its sum is never positive. -/
theorem tile_strength_sum_nonpos (env : GridWorld) :
    (get_state_debug env).tile_strength.sum ≤ 0 := by
  have h1 := poolQuad_fst_nonpos env (quadOffsets (-1) (-1))
  have h2 := poolQuad_fst_nonpos env (quadOffsets 1 (-1))
  have h3 := poolQuad_fst_nonpos env (quadOffsets 1 1)
  have h4 := poolQuad_fst_nonpos env (quadOffsets (-1) 1)
  have hl1 : (quadOffsets (-1) (-1)).length = 8 := by decide
  have hl2 : (quadOffsets 1 (-1)).length = 8 := by decide
  have hl3 : (quadOffsets 1 1).length = 8 := by decide
  have hl4 : (quadOffsets (-1) 1).length = 8 := by decide
  simp only [get_state_debug, QUADS, List.map_cons, List.map_nil, List.sum_cons,
    List.sum_nil, hl1, hl2, hl3, hl4, Nat.cast_ofNat]
  linarith

/-! ### claim theorems -/

/-- C1: in `q_learning`'s Bellman update, when `done` is true the
bootstrap term `best_next` is 0 for every table (independent of the
stored Q-values at the next state); when `done` is false, `best_next`
is the maximum Q-value over all `N_ACTIONS` actions at the next state;
and the row of `s` after the update is the old row with entry `a`
replaced by `Q[s][a] + alpha * (r + gamma * best_next - Q[s][a])`. -/
theorem q_learning_bellman_update (Q : QTable) (s s2 : StateKey) (a : Nat)
    (r alpha gamma : ℚ) (done : Bool)
    (hlen : (qrowAt Q s2).length = N_ACTIONS) :
    (bellmanLookup Q s2 true).1 = 0
  ∧ (done = false →
      ((∀ i, i < N_ACTIONS →
          (qrowAt Q s2).getD i 0 ≤ (bellmanLookup Q s2 done).1)
       ∧ ∃ i, i < N_ACTIONS
          ∧ (qrowAt Q s2).getD i 0 = (bellmanLookup Q s2 done).1))
  ∧ qrowAt (bellmanUpdate Q s a r s2 done alpha gamma) s
      = (qrowAt Q s).set a
          ((qrowAt Q s).getD a 0
            + alpha * (r + gamma * (bellmanLookup Q s2 done).1
                        - (qrowAt Q s).getD a 0)) := by
  have hfst : (bellmanLookup Q s2 false).1 = listMax (qrowAt Q s2) := by
    simp [bellmanLookup, dget_fst]
  refine ⟨by simp [bellmanLookup], ?_, ?_⟩
  · rintro rfl
    constructor
    · intro i hi
      rw [hfst]
      exact listMax_ge _ _ (getD_mem_of_lt _ i (by rw [hlen]; exact hi))
    · have hne : qrowAt Q s2 ≠ [] := by
        intro h0
        rw [h0] at hlen
        simp [N_ACTIONS, ACTIONS] at hlen
      obtain ⟨i, hi, hgi⟩ := List.mem_iff_getElem.mp (listMax_mem _ hne)
      exact ⟨i, by rw [← hlen]; exact hi,
        by rw [hfst, List.getD_eq_getElem _ 0 hi, hgi]⟩
  · simp only [bellmanUpdate]
    rw [qrowAt_qset_self, dget_fst, qrowAt_bellmanLookup_snd]

/-- Witness for C1: at the empty table and a concrete state key, the
terminal bootstrap term is 0. -/
theorem q_learning_bellman_update_witness :
    (bellmanLookup [] keyA true).1 = 0 :=
  (q_learning_bellman_update [] keyA keyA 0 1 (1/5) (19/20) true rfl).1

/-- C4: for every successfully constructed `GridWorld` and every
reachable sequence of `reset()`/`step()` calls, every pheromone cell
value stays within [0,1]. -/
theorem pheromone_bound (grid : List (List Char)) (start goal : Int × Int)
    (env0 : GridWorld) (h0 : GridWorld.init grid start goal = some env0)
    (ops : List EnvOp) : PherInRange (runOps env0 ops) := by
  apply runOps_range
  cases grid with
  | nil => simp [GridWorld.init] at h0
  | cons g0 rest =>
    simp only [GridWorld.init, Option.some.injEq] at h0
    subst h0
    exact pherInRange_reset _

/-- Witness for C4: on a concrete 2×2 world, after one `step(RIGHT)`,
the deposited cell value 3/5 (read off the reachable field) is in
[0,1]. -/
theorem pheromone_bound_witness : 0 ≤ (3/5 : ℚ) ∧ (3/5 : ℚ) ≤ 1 :=
  pheromone_bound [['0','0'], ['0','0']] (0, 0) (1, 1) envFree2 rfl
    [EnvOp.act 3] [0, 3/5]
    (by simp [runOps, applyOp, GridWorld.step, envFree2, decayField,
          depositAt, tileAt, pherAt, inBoundsX, inBoundsY, ACTIONS, List.set])
    (3/5) (by simp)

/-- C5: after one `step()` on a well-formed environment, the cell the
agent ends on holds `decay*old + deposit_rate*(1 - decay*old)` and every
other cell holds `decay*old` (decay 97/100, deposit rate 3/5): the decay
is applied to the whole field before the deposit hits the occupied
cell. -/
theorem step_decay_then_deposit (env : GridWorld) (a : Nat)
    (hW : 1 ≤ env.W) (hH : 1 ≤ env.H)
    (hPH : env.P.length = env.H)
    (hPW : ∀ row ∈ env.P, row.length = env.W)
    (j i : Nat) (hj : j < env.H) (hi : i < env.W) :
    pherAt (env.step a).1.P j i
      = if ((i : Int), (j : Int)) = (env.step a).1.pos
        then (97/100) * pherAt env.P j i
              + (3/5) * (1 - (97/100) * pherAt env.P j i)
        else (97/100) * pherAt env.P j i := by
  obtain ⟨hpos, hP⟩ := step_pos_P env a
  rw [hP, hpos]
  set nx : Int := max 0 (min ((env.W : Int) - 1) (env.pos.1 + (ACTIONS.getD a (0,0)).1)) with hnxdef
  set ny : Int := max 0 (min ((env.H : Int) - 1) (env.pos.2 + (ACTIONS.getD a (0,0)).2)) with hnydef
  have hW' : (1 : Int) ≤ (env.W : Int) := by exact_mod_cast hW
  have hH' : (1 : Int) ≤ (env.H : Int) := by exact_mod_cast hH
  have hnx0 : 0 ≤ nx := le_max_left _ _
  have hny0 : 0 ≤ ny := le_max_left _ _
  have hnxW : nx < (env.W : Int) := by
    rw [hnxdef]
    rcases le_total 0 (min ((env.W:Int) - 1) (env.pos.1 + (ACTIONS.getD a (0,0)).1)) with h | h
    · rw [max_eq_right h]
      have := min_le_left ((env.W:Int) - 1) (env.pos.1 + (ACTIONS.getD a (0,0)).1)
      omega
    · rw [max_eq_left h]; omega
  have hnyH : ny < (env.H : Int) := by
    rw [hnydef]
    rcases le_total 0 (min ((env.H:Int) - 1) (env.pos.2 + (ACTIONS.getD a (0,0)).2)) with h | h
    · rw [max_eq_right h]
      have := min_le_left ((env.H:Int) - 1) (env.pos.2 + (ACTIONS.getD a (0,0)).2)
      omega
    · rw [max_eq_left h]; omega
  have hnyNat : ny.toNat < (decayField env.P (97/100)).length := by
    rw [decayField, List.length_map, hPH]; omega
  have hrowlen : ((decayField env.P (97/100)).getD ny.toNat []).length = env.W := by
    have hjP : ny.toNat < env.P.length := by rw [hPH]; omega
    rw [decayField, List.getD_eq_getElem?_getD, List.getElem?_map,
      List.getElem?_eq_getElem hjP]
    simp only [Option.map_some', Option.getD_some, List.length_map]
    exact hPW _ (List.getElem_mem hjP)
  have hnxNat : nx.toNat < ((decayField env.P (97/100)).getD ny.toNat []).length := by
    rw [hrowlen]; omega
  rw [pherAt_depositAt _ _ _ _ _ _ hnyNat hnxNat]
  by_cases hc : j = ny.toNat ∧ i = nx.toNat
  · obtain ⟨h1, h2⟩ := hc
    subst h1; subst h2
    rw [if_pos ⟨rfl, rfl⟩,
      if_pos (by rw [Prod.mk.injEq, Int.toNat_of_nonneg hnx0, Int.toNat_of_nonneg hny0]; exact ⟨rfl, rfl⟩)]
    rw [pherAt_decayField]
    ring
  · rw [if_neg hc, if_neg (fun hEq => by
      rw [Prod.mk.injEq] at hEq
      exact hc ⟨by omega, by omega⟩)]
    rw [pherAt_decayField]
    ring

/-- Witness for C5: on the concrete 2×2 world `envPher2` (visited cell's
old value 1), one `step(RIGHT)` leaves the visited cell at
`0.97*1 + 0.6*(1 - 0.97*1) = 247/250`. -/
theorem step_decay_then_deposit_witness :
    pherAt (envPher2.step 3).1.P 0 1 = 247/250 := by
  have h := step_decay_then_deposit envPher2 3 (by norm_num [envPher2])
    (by norm_num [envPher2]) (by norm_num [envPher2])
    (by intro row hrow; fin_cases hrow <;> rfl)
    0 1 (by norm_num [envPher2]) (by norm_num [envPher2])
  rw [h]
  norm_num [GridWorld.step, envPher2, ACTIONS, inBoundsX, inBoundsY,
    tileAt, pherAt, decayField, depositAt, List.set]

/-- Counterexample to C6: on a 2×2 all-free world, stepping UP from
`(0,0)` puts the target out of bounds, so `hit_wall=true`, the agent is
clamped back onto the free tile `(0,0)` (tile base term 0) — yet the
returned reward is exactly 0: no additional fixed negative wall-hit
penalty is added on top of the tile-based base term. -/
theorem wall_penalty_counterexample :
    (envFree2.step 0).2.2.2.hit_wall = true
  ∧ tileAt envFree2.grid 0 0 = '0'
  ∧ (envFree2.step 0).2.1 = 0 := by
  norm_num [GridWorld.step, envFree2, ACTIONS, inBoundsX, inBoundsY,
    tileAt, pherAt, decayField, depositAt, List.set]

/-- C6 (amended): every `step()` whose target cell is out of bounds
reports `hit_wall=true`, but the returned reward is exactly the
tile-based base term of the (clamped) landing cell — 0 on a free tile
and -1 otherwise; the additional wall-hit penalty is disabled (commented
out) in this configuration, so no extra negative term is added. -/
theorem wall_hit_no_penalty (env : GridWorld) (a : Nat) :
    ((env.step a).2.2.2.hit_wall = true
      ↔ ¬ (inBoundsX env (env.pos.1 + (ACTIONS.getD a (0,0)).1)
           ∧ inBoundsY env (env.pos.2 + (ACTIONS.getD a (0,0)).2)))
  ∧ (env.step a).2.1
      = (if tileAt env.grid (env.step a).1.pos.2.toNat (env.step a).1.pos.1.toNat = '0'
         then 0 else -1) :=
  ⟨step_hit_wall_iff env a, step_reward_eq env a⟩

/-- Witness for C6 (amended): the out-of-bounds UP step from `(0,0)`
does report `hit_wall=true`. -/
theorem wall_hit_no_penalty_witness :
    (envFree2.step 0).2.2.2.hit_wall = true :=
  (wall_hit_no_penalty envFree2 0).1.mpr
    (by norm_num [envFree2, ACTIONS, inBoundsX, inBoundsY])

/-- Counterexample to C7: on the 1×2 world with the goal at `(1,0)`,
stepping RIGHT onto the goal reports `reached_goal=true` and
`done=true`, but the returned reward is 0: the terminal bonus line adds
0, not a large positive value. -/
theorem goal_bonus_counterexample :
    (envRow2.step 3).2.2.2.reached_goal = true
  ∧ (envRow2.step 3).2.2.1 = true
  ∧ (envRow2.step 3).2.1 = 0 := by
  norm_num [GridWorld.step, envRow2, ACTIONS, inBoundsX, inBoundsY,
    tileAt, pherAt, decayField, depositAt, List.set]

/-- C7 (amended): every `step()` that reports `reached_goal=true` also
reports `done=true`, and its reward is exactly the tile-based base term
of the landing cell: the terminal bonus added on reaching the goal is 0
in this configuration. -/
theorem goal_reach_done_no_bonus (env : GridWorld) (a : Nat)
    (h : (env.step a).2.2.2.reached_goal = true) :
    (env.step a).2.2.1 = true
  ∧ (env.step a).2.1
      = (if tileAt env.grid (env.step a).1.pos.2.toNat (env.step a).1.pos.1.toNat = '0'
         then 0 else -1) := by
  refine ⟨?_, step_reward_eq env a⟩
  rw [step_done_eq, h]
  simp

/-- Witness for C7 (amended): the concrete goal-reaching step on the
1×2 world ends the episode. -/
theorem goal_reach_done_no_bonus_witness :
    (envRow2.step 3).2.2.1 = true :=
  (goal_reach_done_no_bonus envRow2 3
    (by norm_num [GridWorld.step, envRow2, ACTIONS, inBoundsX, inBoundsY,
      tileAt, pherAt, decayField, depositAt, List.set])).1

/-- Counterexample to C8: constructing a `GridWorld` whose start cell
`(5,5)` is far outside the 2×2 grid succeeds — no configuration error
is raised for out-of-bounds start or goal. -/
theorem init_no_validation_counterexample :
    (GridWorld.init [['0','0'], ['0','0']] (5, 5) (0, 0)).isSome = true := rfl

/-- C8 (amended): `GridWorld` construction fails only on the empty grid
(the `grid[0]` access raises); for any nonempty grid — rectangular or
not, with start and goal in bounds or not — construction succeeds with
no validation at all. -/
theorem init_fails_only_on_empty :
    (∀ s g : Int × Int, GridWorld.init [] s g = none)
  ∧ (∀ (g0 : List Char) (gr : List (List Char)) (s g : Int × Int),
      (GridWorld.init (g0 :: gr) s g).isSome = true) :=
  ⟨fun _ _ => rfl, fun _ _ _ _ => rfl⟩

/-- C9: `greedy_run` never changes the value of a Q-table entry that
exists when it is called; a key absent on entry is afterwards either
still absent or bound to the fresh all-zeros row; and the `defaultdict`
read performed for a missing state yields, and inserts, exactly the
all-zeros row — the table may gain entries during the read-only
evaluation pass. -/
theorem greedy_run_frame (env : GridWorld) (Q : QTable) (max_steps : Nat)
    (rnd : Rand) :
    (∀ s v, qlookup Q s = some v →
        qlookup (greedy_run env Q max_steps rnd).2.2 s = some v)
  ∧ (∀ s, qlookup Q s = none →
        qlookup (greedy_run env Q max_steps rnd).2.2 s = none
      ∨ qlookup (greedy_run env Q max_steps rnd).2.2 s = some zeroRow)
  ∧ (∀ s, qlookup Q s = none →
        (dget Q s).1 = zeroRow ∧ qlookup (dget Q s).2 s = some zeroRow) := by
  have h := greedyLoop_extendsZ max_steps
    { env := env.reset, Q := Q, rnd := rnd, total_r := 0 }
  simp only [greedy_run]
  refine ⟨h.1, h.2, ?_⟩
  intro s hs
  constructor
  · simp [dget, hs]
  · simp [dget, hs, qlookup_append_zero]

/-- Witness for C9: the binding of `keyA` in `qtabA` survives a concrete
`greedy_run` unchanged, and a read of the absent key `([],[])` inserts
the all-zeros row. -/
theorem greedy_run_frame_witness :
    qlookup (greedy_run envFree2 qtabA 2 rndOne).2.2 keyA
      = some [1, 2, 3, 4, 5, 6, 7, 8]
  ∧ qlookup (dget qtabA (([], []) : StateKey)).2 (([], []) : StateKey)
      = some zeroRow :=
  ⟨(greedy_run_frame envFree2 qtabA 2 rndOne).1 keyA [1, 2, 3, 4, 5, 6, 7, 8]
      (by simp [qtabA, qlookup]),
   ((greedy_run_frame envFree2 qtabA 2 rndOne).2.2 (([], []) : StateKey)
      (by simp [qtabA, qlookup, keyA])).2⟩

/-- C10: when a diagonal action's target is out of bounds in exactly one
axis, `step()` reports `hit_wall=true` and yet the position changes: the
in-bounds axis still moves by its full delta (so `hit_wall=true` does not
imply the position is unchanged); and the position is unchanged only
when, in every axis the action moves, the agent sits on the boundary and
the action points outward. -/
theorem diagonal_clamp_partial_move (env : GridWorld) (a : Nat)
    (hW : 1 ≤ env.W) (hH : 1 ≤ env.H) :
    ((ACTIONS.getD a (0,0)).1 ≠ 0 →
     (ACTIONS.getD a (0,0)).2 ≠ 0 →
     ((inBoundsX env (env.pos.1 + (ACTIONS.getD a (0,0)).1) ∧
       ¬ inBoundsY env (env.pos.2 + (ACTIONS.getD a (0,0)).2)) ∨
      (¬ inBoundsX env (env.pos.1 + (ACTIONS.getD a (0,0)).1) ∧
       inBoundsY env (env.pos.2 + (ACTIONS.getD a (0,0)).2))) →
     ((env.step a).2.2.2.hit_wall = true ∧
      (env.step a).1.pos ≠ env.pos ∧
      (inBoundsX env (env.pos.1 + (ACTIONS.getD a (0,0)).1) →
        (env.step a).1.pos.1 = env.pos.1 + (ACTIONS.getD a (0,0)).1) ∧
      (inBoundsY env (env.pos.2 + (ACTIONS.getD a (0,0)).2) →
        (env.step a).1.pos.2 = env.pos.2 + (ACTIONS.getD a (0,0)).2)))
    ∧
    ((env.step a).1.pos = env.pos →
     ((ACTIONS.getD a (0,0)).1 ≠ 0 →
       (0 < (ACTIONS.getD a (0,0)).1 ∧ env.pos.1 = (env.W : Int) - 1) ∨
       ((ACTIONS.getD a (0,0)).1 < 0 ∧ env.pos.1 = 0)) ∧
     ((ACTIONS.getD a (0,0)).2 ≠ 0 →
       (0 < (ACTIONS.getD a (0,0)).2 ∧ env.pos.2 = (env.H : Int) - 1) ∨
       ((ACTIONS.getD a (0,0)).2 < 0 ∧ env.pos.2 = 0))) := by
  obtain ⟨hpos, -⟩ := step_pos_P env a
  have hW' : (1 : Int) ≤ (env.W : Int) := by exact_mod_cast hW
  have hH' : (1 : Int) ≤ (env.H : Int) := by exact_mod_cast hH
  set dx : Int := (ACTIONS.getD a (0,0)).1 with hdxdef
  set dy : Int := (ACTIONS.getD a (0,0)).2 with hdydef
  have hcx := clamp_cases (env.W : Int) (env.pos.1 + dx) hW'
  have hcy := clamp_cases (env.H : Int) (env.pos.2 + dy) hH'
  constructor
  · intro hdx hdy hxor
    have hwall : (env.step a).2.2.2.hit_wall = true := by
      rw [step_hit_wall_iff]
      rcases hxor with ⟨-, h2⟩ | ⟨h1, -⟩
      · exact fun hc => h2 hc.2
      · exact fun hc => h1 hc.1
    refine ⟨hwall, ?_, ?_, ?_⟩
    · -- position changes
      rcases hxor with ⟨hx, hy⟩ | ⟨hx, hy⟩
      · obtain ⟨-, -, he⟩ : 0 ≤ env.pos.1 + dx ∧ env.pos.1 + dx < (env.W:Int)
            ∧ max 0 (min ((env.W:Int)-1) (env.pos.1 + dx)) = env.pos.1 + dx := by
          rcases hcx with h | ⟨h, -⟩ | ⟨h, -⟩
          · exact h
          · exact absurd hx (by intro hxx; exact absurd hxx.1 (by omega))
          · exact absurd hx (by intro hxx; exact absurd hxx.2 (by omega))
        intro heq
        rw [hpos] at heq
        have := congrArg Prod.fst heq
        simp only at this
        rw [he] at this
        omega
      · obtain ⟨-, -, he⟩ : 0 ≤ env.pos.2 + dy ∧ env.pos.2 + dy < (env.H:Int)
            ∧ max 0 (min ((env.H:Int)-1) (env.pos.2 + dy)) = env.pos.2 + dy := by
          rcases hcy with h | ⟨h, -⟩ | ⟨h, -⟩
          · exact h
          · exact absurd hy (by intro hyy; exact absurd hyy.1 (by omega))
          · exact absurd hy (by intro hyy; exact absurd hyy.2 (by omega))
        intro heq
        rw [hpos] at heq
        have := congrArg Prod.snd heq
        simp only at this
        rw [he] at this
        omega
    · intro hx
      rw [hpos]
      obtain ⟨h0, h1⟩ := hx
      simp only
      rw [min_eq_right (by omega), max_eq_right (by omega)]
    · intro hy
      rw [hpos]
      obtain ⟨h0, h1⟩ := hy
      simp only
      rw [min_eq_right (by omega), max_eq_right (by omega)]
  · intro heq
    rw [hpos] at heq
    have heqx := congrArg Prod.fst heq
    have heqy := congrArg Prod.snd heq
    simp only at heqx heqy
    constructor
    · intro hdx
      rcases hcx with ⟨-, -, he⟩ | ⟨h, he⟩ | ⟨h, he⟩
      · rw [he] at heqx; omega
      · rw [he] at heqx; right; omega
      · rw [he] at heqx; left; omega
    · intro hdy
      rcases hcy with ⟨-, -, he⟩ | ⟨h, he⟩ | ⟨h, he⟩
      · rw [he] at heqy; omega
      · rw [he] at heqy; right; omega
      · rw [he] at heqy; left; omega

/-- Witness for C10: on the 3×3 world with the agent at `(1,0)`, the
UP-RIGHT step leaves the grid in y only: `hit_wall=true` and the agent
nevertheless moves. -/
theorem diagonal_clamp_partial_move_witness :
    (envEdge3.step 5).2.2.2.hit_wall = true
  ∧ (envEdge3.step 5).1.pos ≠ envEdge3.pos := by
  have h := (diagonal_clamp_partial_move envEdge3 5 (by decide) (by decide)).1
    (by decide) (by decide)
    (Or.inl ⟨by decide, by decide⟩)
  exact ⟨h.1, h.2.1⟩

set_option maxHeartbeats 4000000 in
/-- C2 (refuted; code bug): the inner training loop of `q_learning` does
NOT break when a step reports `done=true` — the source reads
`if not done: pass` with the break-and-report block commented out.  The
first conjunct proves the loop always runs its full step budget for all
inputs; the second runs a concrete episode on an all-obstacle world
where the very first transition has `done=true`, and two further
environment steps are still taken (three `done` flags recorded). -/
theorem training_inner_loop_never_breaks :
    (∀ (eps alpha gamma : ℚ) (n : Nat) (st : InnerState),
        ((qlInnerLoop eps alpha gamma n st).dones).length = st.dones.length + n)
  ∧ (qlEpisode 3 (2/5) (1/5) (19/20) envObst2 [] rndZero).dones
      = [true, true, true] := by
  refine ⟨fun eps alpha gamma n st => qlInnerLoop_dones_length eps alpha gamma n st, ?_⟩
  norm_num [qlEpisode, qlInnerLoop, qlInnerStep, GridWorld.reset, GridWorld.step,
    get_state, get_state_debug, poolQuad, QUADS, quadOffsets, visionRange,
    normalize, bucketize, tileAt, pherAt, inBoundsX, inBoundsY, decayField,
    depositAt, ACTIONS, N_ACTIONS, dget, qlookup, qset, zeroRow, bellmanUpdate,
    bellmanLookup, listMax, argmax_index, Rand.unif, Rand.randNat, rndZero,
    envObst2, List.set, List.replicate, List.filterMap, List.foldl, List.flatMap]

set_option maxHeartbeats 4000000 in
/-- C3 (refuted; code bug): the tile relative-strength 4-vector does NOT
sum to 1 — the `softmax` normalization is commented out in the source,
contradicting `get_state`'s own docstring, so the vector is the raw
quadrant averages whose sum is never positive (first conjunct); on the
concrete all-free 5×5 world with the agent at the center the sum is
exactly 0, which misses 1 by far more than the 1e-6 tolerance (second
and third conjuncts).  (The pheromone preference vector, by contrast, is
normalized by `normalize`.) -/
theorem featurizer_tile_vector_not_normalized :
    (∀ env : GridWorld, (get_state_debug env).tile_strength.sum ≤ 0)
  ∧ (get_state_debug envFree5).tile_strength.sum = 0
  ∧ (1:ℚ)/1000000 < |1 - (get_state_debug envFree5).tile_strength.sum| := by
  have hsum : (get_state_debug envFree5).tile_strength.sum = 0 := by
    norm_num [get_state_debug, poolQuad, QUADS, quadOffsets, visionRange,
      normalize, bucketize, tileAt, pherAt, inBoundsX, inBoundsY,
      envFree5, List.filterMap, List.foldl, List.flatMap]
    simp
  refine ⟨tile_strength_sum_nonpos, hsum, ?_⟩
  rw [hsum]
  norm_num

end Core
